import Mathlib

/-!
Verification of the CISA-KEV ETL connector (`src/etl_connector.py`).

The script is embedded shallowly:

* JSON values (the payloads handled by the script) are the inductive `Json`;
  Python `dict`s are insertion-ordered association lists whose keys are
  pairwise distinct (the predicate `pyDictWF`).
* `sanitize_for_mongo`, `transform`, `load_to_mongo` and `run` are direct
  translations of the Python functions of the same names.  Python exceptions
  are `Except PyError`; the real-time clock is a parameter `clock : Nat →
  String` giving the result of the n-th `datetime.now(...).isoformat()` call;
  the HTTP response and the MongoDB `insert_many` outcome are inputs of the
  environment `Env`.
* `run`'s try/except is modelled by `pipelineE` (the body of the `try:`
  block, propagating exceptions) and `run` (which catches them and records
  the observable trace of the run).
-/

/-- JSON values.  Python dicts are modelled as insertion-ordered association
lists; numbers are modelled as integers (the claims under study never involve
non-integer numbers). -/
inductive Json where
  | null
  | bool (b : Bool)
  | num (n : Int)
  | str (s : String)
  | arr (xs : List Json)
  | obj (kvs : List (String × Json))

/-- Python exceptions that the script can raise. -/
inductive PyError where
  | runtimeError (msg : String)
  | typeError (msg : String)
  | attributeError (msg : String)
  | httpError (status : Nat)
  | parseError (msg : String)
  | insertError (msg : String)
deriving DecidableEq

/-- Lookup in an insertion-ordered Python dict (`d[k]` / `d.get(k)`). -/
def dictGet : List (String × Json) → String → Option Json
  | [], _ => none
  | p :: rest, k => if p.1 = k then some p.2 else dictGet rest k

/-- Assignment `d[k] = v` on an insertion-ordered Python dict: an existing
key keeps its position and gets the new value, a new key is appended. -/
def dictSet : List (String × Json) → String → Json → List (String × Json)
  | [], k, v => [(k, v)]
  | p :: rest, k, v => if p.1 = k then (k, v) :: rest else p :: dictSet rest k v

/-- Building a fresh dict `new = {}` by executing `new[k] = v` for each pair
in order, exactly as the loop in `sanitize_for_mongo` does. -/
def buildDict (ps : List (String × Json)) : List (String × Json) :=
  ps.foldl (fun acc p => dictSet acc p.1 p.2) []

/-- Replace every occurrence of the character `c` in `s` by `r`; this is
Python's `s.replace(old, new)` for a single-character pattern. -/
def replaceChar (s : String) (c r : Char) : String :=
  String.mk (s.data.map (fun a => if a = c then r else a))

/-- The key rewriting `k.replace(".", "_").replace("$", "_")` of
`sanitize_for_mongo`. -/
def sanitizeKey (k : String) : String :=
  replaceChar (replaceChar k '.' '_') '$' '_'

mutual

/-- `sanitize_for_mongo` from `src/etl_connector.py`: for a dict, build a new
dict assigning `sanitizeKey k ↦ sanitize_for_mongo v` pair by pair; for a
list, sanitize every element; return anything else unchanged. -/
def sanitize_for_mongo : Json → Json
  | .null => .null
  | .bool b => .bool b
  | .num n => .num n
  | .str s => .str s
  | .arr xs => .arr (sanitizeArr xs)
  | .obj kvs => .obj (buildDict (sanitizePairs kvs))

/-- The list comprehension `[sanitize_for_mongo(i) for i in obj]`. -/
def sanitizeArr : List Json → List Json
  | [] => []
  | x :: xs => sanitize_for_mongo x :: sanitizeArr xs

/-- The pairs `(new_key, sanitize_for_mongo(v))` produced by the dict loop of
`sanitize_for_mongo`, in iteration order. -/
def sanitizePairs : List (String × Json) → List (String × Json)
  | [] => []
  | (k, v) :: rest => (sanitizeKey k, sanitize_for_mongo v) :: sanitizePairs rest

end

/-- Whether a JSON value is a Python dict. -/
def Json.isObj : Json → Bool
  | .obj _ => true
  | _ => false

mutual

/-- Representation invariant of values that can actually arise from Python:
every dict in the value has pairwise-distinct keys (a Python `dict` cannot
hold a duplicate key). -/
def pyDictWF : Json → Bool
  | .null => true
  | .bool _ => true
  | .num _ => true
  | .str _ => true
  | .arr xs => pyDictWFArr xs
  | .obj kvs => decide ((kvs.map Prod.fst).Nodup) && pyDictWFPairs kvs

/-- `pyDictWF` on every element of a list. -/
def pyDictWFArr : List Json → Bool
  | [] => true
  | x :: xs => pyDictWF x && pyDictWFArr xs

/-- `pyDictWF` on every value of a dict. -/
def pyDictWFPairs : List (String × Json) → Bool
  | [] => true
  | p :: rest => pyDictWF p.2 && pyDictWFPairs rest

end

/-- A key is clean when it contains neither `.` nor `$`. -/
def cleanKey (k : String) : Bool :=
  k.data.all (fun c => !(c = '.' : Bool) && !(c = '$' : Bool))

mutual

/-- Every dict key anywhere in the value is free of `.` and `$`. -/
def cleanJson : Json → Bool
  | .null => true
  | .bool _ => true
  | .num _ => true
  | .str _ => true
  | .arr xs => cleanJsonArr xs
  | .obj kvs => cleanJsonPairs kvs

/-- `cleanJson` on every element of a list. -/
def cleanJsonArr : List Json → Bool
  | [] => true
  | x :: xs => cleanJson x && cleanJsonArr xs

/-- Clean key and `cleanJson` value for every pair of a dict. -/
def cleanJsonPairs : List (String × Json) → Bool
  | [] => true
  | (k, v) :: rest => cleanKey k && cleanJson v && cleanJsonPairs rest

end

/-- The statement `doc["ingested_at"] = ts` of `transform`, for the case
where `doc` is a dict (on any other value the Python assignment raises). -/
def withIngested (j : Json) (ts : String) : Json :=
  match j with
  | .obj kvs => .obj (dictSet kvs "ingested_at" (.str ts))
  | other => other

/-- Item assignment `doc[k] = v`: succeeds only on a dict, any other value
raises a `TypeError` (`'...' object does not support item assignment`). -/
def setItem (j : Json) (k : String) (v : Json) : Except PyError Json :=
  match j with
  | .obj kvs => .ok (.obj (dictSet kvs k v))
  | _ => .error (.typeError "object does not support item assignment")

/-- Python iteration `for item in x`: a list yields its elements, a string
its characters, a dict its keys; other values raise a `TypeError`. -/
def pyIterElems : Json → Except PyError (List Json)
  | .arr xs => .ok xs
  | .str s => .ok (s.data.map (fun c => .str (String.mk [c])))
  | .obj kvs => .ok (kvs.map (fun p => .str p.1))
  | _ => .error (.typeError "object is not iterable")

/-- `raw_data.get("vulnerabilities", [])`: defined on dicts, raises an
`AttributeError` on any other value (no `.get` method). -/
def pyGetDefault (raw : Json) (k : String) (dflt : Json) : Except PyError Json :=
  match raw with
  | .obj kvs => .ok ((dictGet kvs k).getD dflt)
  | _ => .error (.attributeError "object has no attribute get")

/-- The body of the `for item in vulnerabilities` loop of `transform`,
threading the index of the next `datetime.now` call: sanitize the item,
assign `ingested_at`, append. -/
def transformLoop (clock : Nat → String) : Nat → List Json → Except PyError (List Json)
  | _, [] => .ok []
  | i, item :: rest => do
    let doc := sanitize_for_mongo item
    let doc2 ← setItem doc "ingested_at" (.str (clock i))
    let docs ← transformLoop clock (i + 1) rest
    pure (doc2 :: docs)

/-- `transform` from `src/etl_connector.py`.  `clock i` is the timestamp
returned by the i-th `datetime.now(timezone.utc).isoformat()` call of this
transform. -/
def transform (clock : Nat → String) (raw : Json) : Except PyError (List Json) := do
  let vulns ← pyGetDefault raw "vulnerabilities" (.arr [])
  let items ← pyIterElems vulns
  transformLoop clock 0 items

/-- Truthiness of the `MONGO_URI` environment value: `not MONGO_URI` is true
exactly when the variable is unset (`None`) or the empty string. -/
def pyTruthyStr : Option String → Bool
  | none => false
  | some s => !s.isEmpty

/-- Observable behaviour of one `load_to_mongo` call.  `result` is the
Python outcome: `.error e` when the call raises, `.ok r` when it returns the
value `r` (`none` models Python's `None`, `some n` would model returning the
integer `n` — the function as written always returns `None`). -/
structure LoadEff where
  connected : Bool
  insertCalled : Bool
  inserted : List Json
  warned : Bool
  result : Except PyError (Option Nat)

/-- `load_to_mongo` from `src/etl_connector.py`.  `ins` is the behaviour of
the MongoDB `insert_many` call (returns the number of inserted ids, or
raises).  The URI check precedes the client connection; an empty `docs` list
skips the insert and logs a warning; the function body has no `return`, so
it returns `None` on every non-raising path. -/
def load_to_mongo (uri : Option String) (ins : List Json → Except PyError Nat)
    (docs : List Json) : LoadEff :=
  if pyTruthyStr uri then
    if docs.isEmpty then
      { connected := true, insertCalled := false, inserted := [], warned := true,
        result := .ok none }
    else
      match ins docs with
      | .ok _ =>
        { connected := true, insertCalled := true, inserted := docs, warned := false,
          result := .ok none }
      | .error e =>
        { connected := true, insertCalled := true, inserted := [], warned := false,
          result := .error e }
  else
    { connected := false, insertCalled := false, inserted := [], warned := false,
      result := .error (.runtimeError "MONGO_URI not set in environment variables.") }

/-- An HTTP response: status code and the outcome of parsing the body as
JSON (`resp.json()`). -/
structure HttpResponse where
  status : Nat
  body : Except String Json

/-- `extract` from `src/etl_connector.py`.  `http` is the outcome of
`requests.get(url, timeout=30)` (a network error or timeout raises before a
response exists).  `raise_for_status` raises on any 4xx/5xx status;
otherwise the parsed body is returned (`resp.json()` raises a parse error on
a non-JSON body). -/
def extract (http : Except PyError HttpResponse) : Except PyError Json :=
  match http with
  | .error e => .error e
  | .ok resp =>
    if 400 ≤ resp.status && resp.status < 600 then .error (.httpError resp.status)
    else
      match resp.body with
      | .ok j => .ok j
      | .error m => .error (.parseError m)

/-- The environment of one run: configuration and the behaviour of the two
external systems (HTTP feed, MongoDB) plus the clock. -/
structure Env where
  mongoUri : Option String
  http : Except PyError HttpResponse
  insertOutcome : List Json → Except PyError Nat
  clock : Nat → String

/-- Which step invocations happened during the `try:` block, and the load
call's observable effects. -/
structure StepsEff where
  fetchRan : Bool
  transformRan : Bool
  loadRan : Bool
  loadEff : LoadEff

/-- Effects of a load call that never happened. -/
def noLoad : LoadEff :=
  { connected := false, insertCalled := false, inserted := [], warned := false,
    result := .ok none }

/-- The body of `run`'s `try:` block: `extract`, then `transform`, then
`load_to_mongo`, each exception aborting the rest and propagating. -/
def pipelineE (env : Env) : StepsEff × Except PyError (Option Nat) :=
  match extract env.http with
  | .error e => (⟨true, false, false, noLoad⟩, .error e)
  | .ok raw =>
    match transform env.clock raw with
    | .error e => (⟨true, true, false, noLoad⟩, .error e)
    | .ok docs =>
      let eff := load_to_mongo env.mongoUri env.insertOutcome docs
      (⟨true, true, true, eff⟩, eff.result)

/-- Terminal state of a run: the orchestrator's DONE or FAILED. -/
inductive RunState where
  | done
  | failed
deriving DecidableEq

/-- Everything observable about one `run()` call.  `errorLogged` is the
exception caught and logged by the `except` clause, if any; `run` itself
never raises, which is why its type is a plain trace and not `Except`. -/
structure RunTrace where
  state : RunState
  fetchRan : Bool
  transformRan : Bool
  loadRan : Bool
  connected : Bool
  insertCalled : Bool
  inserted : List Json
  errorLogged : Option PyError

/-- `run` from `src/etl_connector.py`: execute the pipeline inside
`try: ... except Exception as e: logger.exception(...)`.  Every exception is
caught, logged and swallowed. -/
def run (env : Env) : RunTrace :=
  match pipelineE env with
  | (eff, .ok _) =>
    { state := .done, fetchRan := eff.fetchRan, transformRan := eff.transformRan,
      loadRan := eff.loadRan, connected := eff.loadEff.connected,
      insertCalled := eff.loadEff.insertCalled, inserted := eff.loadEff.inserted,
      errorLogged := none }
  | (eff, .error e) =>
    { state := .failed, fetchRan := eff.fetchRan, transformRan := eff.transformRan,
      loadRan := eff.loadRan, connected := eff.loadEff.connected,
      insertCalled := eff.loadEff.insertCalled, inserted := eff.loadEff.inserted,
      errorLogged := some e }

/-- The documents `transform` produces for a list of dict items, as a pure
function: element i is the sanitized item with `ingested_at` set to
`clock (n + i)`. -/
def ingestAll (clock : Nat → String) : Nat → List Json → List Json
  | _, [] => []
  | n, item :: rest =>
    withIngested (sanitize_for_mongo item) (clock n) :: ingestAll clock (n + 1) rest

/-- Key lookup on a JSON value: `dictGet` on a dict, `none` otherwise. -/
def jsonLookup (j : Json) (k : String) : Option Json :=
  match j with
  | .obj kvs => dictGet kvs k
  | _ => none

mutual

/-- Structural induction principle for `Json` with list and dict hypotheses
stated via membership. -/
def jsonInduction (P : Json → Prop)
    (hnull : P .null) (hbool : ∀ b, P (.bool b)) (hnum : ∀ n, P (.num n))
    (hstr : ∀ s, P (.str s))
    (harr : ∀ xs, (∀ x ∈ xs, P x) → P (.arr xs))
    (hobj : ∀ kvs, (∀ p ∈ kvs, P p.2) → P (.obj kvs)) : ∀ j, P j
  | .null => hnull
  | .bool b => hbool b
  | .num n => hnum n
  | .str s => hstr s
  | .arr xs => harr xs (jsonInductionList P hnull hbool hnum hstr harr hobj xs)
  | .obj kvs => hobj kvs (jsonInductionPairs P hnull hbool hnum hstr harr hobj kvs)

/-- `jsonInduction` lifted to every element of a list. -/
def jsonInductionList (P : Json → Prop)
    (hnull : P .null) (hbool : ∀ b, P (.bool b)) (hnum : ∀ n, P (.num n))
    (hstr : ∀ s, P (.str s))
    (harr : ∀ xs, (∀ x ∈ xs, P x) → P (.arr xs))
    (hobj : ∀ kvs, (∀ p ∈ kvs, P p.2) → P (.obj kvs)) :
    ∀ xs : List Json, ∀ x ∈ xs, P x
  | [], x, hx => absurd hx (List.not_mem_nil x)
  | y :: ys, x, hx => by
    rcases List.mem_cons.1 hx with h | h
    · exact h ▸ jsonInduction P hnull hbool hnum hstr harr hobj y
    · exact jsonInductionList P hnull hbool hnum hstr harr hobj ys x h

/-- `jsonInduction` lifted to every value of a dict. -/
def jsonInductionPairs (P : Json → Prop)
    (hnull : P .null) (hbool : ∀ b, P (.bool b)) (hnum : ∀ n, P (.num n))
    (hstr : ∀ s, P (.str s))
    (harr : ∀ xs, (∀ x ∈ xs, P x) → P (.arr xs))
    (hobj : ∀ kvs, (∀ p ∈ kvs, P p.2) → P (.obj kvs)) :
    ∀ kvs : List (String × Json), ∀ p ∈ kvs, P p.2
  | [], p, hp => absurd hp (List.not_mem_nil p)
  | q :: qs, p, hp => by
    rcases List.mem_cons.1 hp with h | h
    · exact h ▸ jsonInduction P hnull hbool hnum hstr harr hobj q.2
    · exact jsonInductionPairs P hnull hbool hnum hstr harr hobj qs p h

end

/-! ## Dictionary lemmas -/

theorem dictSet_cons_pos (p : String × Json) (rest : List (String × Json))
    (k : String) (v : Json) (h : p.1 = k) :
    dictSet (p :: rest) k v = (k, v) :: rest := by
  simp [dictSet, h]

theorem dictSet_cons_neg (p : String × Json) (rest : List (String × Json))
    (k : String) (v : Json) (h : ¬ p.1 = k) :
    dictSet (p :: rest) k v = p :: dictSet rest k v := by
  simp [dictSet, h]

theorem dictGet_dictSet_self (kvs : List (String × Json)) (k : String) (v : Json) :
    dictGet (dictSet kvs k v) k = some v := by
  induction kvs with
  | nil => simp [dictSet, dictGet]
  | cons p rest ih =>
    by_cases h : p.1 = k
    · rw [dictSet_cons_pos p rest k v h]
      simp [dictGet]
    · rw [dictSet_cons_neg p rest k v h]
      simp [dictGet, h, ih]

theorem dictSet_of_not_mem (kvs : List (String × Json)) (k : String) (v : Json)
    (h : k ∉ kvs.map Prod.fst) : dictSet kvs k v = kvs ++ [(k, v)] := by
  induction kvs with
  | nil => simp [dictSet]
  | cons p rest ih =>
    simp only [List.map_cons, List.mem_cons] at h
    push_neg at h
    have hne : ¬ p.1 = k := fun hh => h.1 hh.symm
    rw [dictSet_cons_neg p rest k v hne, ih h.2]
    simp

theorem mem_keys_dictSet (kvs : List (String × Json)) (k a : String) (v : Json) :
    a ∈ (dictSet kvs k v).map Prod.fst ↔ a ∈ kvs.map Prod.fst ∨ a = k := by
  induction kvs with
  | nil => simp [dictSet]
  | cons p rest ih =>
    by_cases h : p.1 = k
    · rw [dictSet_cons_pos p rest k v h]
      simp only [List.map_cons, List.mem_cons, h]
      tauto
    · rw [dictSet_cons_neg p rest k v h]
      simp only [List.map_cons, List.mem_cons, ih]
      tauto

theorem keys_nodup_dictSet (kvs : List (String × Json)) (k : String) (v : Json)
    (h : (kvs.map Prod.fst).Nodup) : ((dictSet kvs k v).map Prod.fst).Nodup := by
  induction kvs with
  | nil => simp [dictSet]
  | cons p rest ih =>
    simp only [List.map_cons, List.nodup_cons] at h
    by_cases hp : p.1 = k
    · rw [dictSet_cons_pos p rest k v hp]
      simp only [List.map_cons, List.nodup_cons]
      exact ⟨hp ▸ h.1, h.2⟩
    · rw [dictSet_cons_neg p rest k v hp]
      simp only [List.map_cons, List.nodup_cons]
      refine ⟨fun hc => ?_, ih h.2⟩
      rcases (mem_keys_dictSet rest k p.1 v).1 hc with hm | he
      · exact h.1 hm
      · exact hp he

theorem mem_dictSet (kvs : List (String × Json)) (k : String) (v : Json)
    (p : String × Json) (h : p ∈ dictSet kvs k v) : p ∈ kvs ∨ p = (k, v) := by
  induction kvs with
  | nil => simpa [dictSet] using h
  | cons q rest ih =>
    by_cases hq : q.1 = k
    · rw [dictSet_cons_pos q rest k v hq] at h
      rcases List.mem_cons.1 h with h1 | h1
      · exact .inr h1
      · exact .inl (List.mem_cons_of_mem q h1)
    · rw [dictSet_cons_neg q rest k v hq] at h
      rcases List.mem_cons.1 h with h1 | h1
      · exact .inl (h1 ▸ List.mem_cons_self q rest)
      · rcases ih h1 with h2 | h2
        · exact .inl (List.mem_cons_of_mem q h2)
        · exact .inr h2

/-! ## buildDict lemmas -/

theorem foldl_dictSet_eq_append (ps acc : List (String × Json))
    (h : ((acc ++ ps).map Prod.fst).Nodup) :
    ps.foldl (fun a p => dictSet a p.1 p.2) acc = acc ++ ps := by
  induction ps generalizing acc with
  | nil => simp
  | cons p rest ih =>
    have hnotmem : p.1 ∉ acc.map Prod.fst := by
      intro hm
      have h2 : (acc.map Prod.fst ++ p.1 :: rest.map Prod.fst).Nodup := by
        simpa using h
      exact (List.nodup_append.1 h2).2.2 hm (List.mem_cons_self _ _)
    simp only [List.foldl_cons]
    rw [dictSet_of_not_mem acc p.1 p.2 hnotmem, ih]
    · simp
    · simpa using h

theorem buildDict_eq_of_nodup (ps : List (String × Json))
    (h : (ps.map Prod.fst).Nodup) : buildDict ps = ps := by
  simpa [buildDict] using foldl_dictSet_eq_append ps [] (by simpa using h)

theorem foldl_dictSet_keys_nodup (ps acc : List (String × Json))
    (h : (acc.map Prod.fst).Nodup) :
    ((ps.foldl (fun a p => dictSet a p.1 p.2) acc).map Prod.fst).Nodup := by
  induction ps generalizing acc with
  | nil => simpa
  | cons p rest ih =>
    simp only [List.foldl_cons]
    exact ih _ (keys_nodup_dictSet acc p.1 p.2 h)

theorem buildDict_keys_nodup (ps : List (String × Json)) :
    ((buildDict ps).map Prod.fst).Nodup :=
  foldl_dictSet_keys_nodup ps [] (by simp)

theorem mem_keys_foldl_dictSet (ps acc : List (String × Json)) (a : String) :
    a ∈ ((ps.foldl (fun x p => dictSet x p.1 p.2) acc).map Prod.fst) ↔
      a ∈ acc.map Prod.fst ∨ a ∈ ps.map Prod.fst := by
  induction ps generalizing acc with
  | nil => simp
  | cons p rest ih =>
    simp only [List.foldl_cons, ih, mem_keys_dictSet, List.map_cons, List.mem_cons]
    tauto

theorem mem_keys_buildDict (ps : List (String × Json)) (a : String) :
    a ∈ (buildDict ps).map Prod.fst ↔ a ∈ ps.map Prod.fst := by
  simpa [buildDict] using mem_keys_foldl_dictSet ps [] a

theorem mem_foldl_dictSet (ps acc : List (String × Json)) (p : String × Json)
    (h : p ∈ ps.foldl (fun x q => dictSet x q.1 q.2) acc) : p ∈ acc ∨ p ∈ ps := by
  induction ps generalizing acc with
  | nil => exact .inl (by simpa using h)
  | cons q rest ih =>
    simp only [List.foldl_cons] at h
    rcases ih _ h with h1 | h1
    · rcases mem_dictSet acc q.1 q.2 p h1 with h2 | h2
      · exact .inl h2
      · exact .inr (by simp [h2])
    · exact .inr (List.mem_cons_of_mem q h1)

theorem mem_buildDict (ps : List (String × Json)) (p : String × Json)
    (h : p ∈ buildDict ps) : p ∈ ps := by
  rcases mem_foldl_dictSet ps [] p (by simpa [buildDict] using h) with h1 | h1
  · simp at h1
  · exact h1

theorem buildDict_length (ps : List (String × Json)) :
    (buildDict ps).length = (ps.map Prod.fst).toFinset.card := by
  have hn := buildDict_keys_nodup ps
  have hmem : ((buildDict ps).map Prod.fst).toFinset = (ps.map Prod.fst).toFinset := by
    ext a
    simp only [List.mem_toFinset]
    exact mem_keys_buildDict ps a
  calc (buildDict ps).length = ((buildDict ps).map Prod.fst).length := by simp
    _ = ((buildDict ps).map Prod.fst).toFinset.card :=
        (List.toFinset_card_of_nodup hn).symm
    _ = (ps.map Prod.fst).toFinset.card := by rw [hmem]

/-! ## Key rewriting lemmas -/

theorem sanitizeKey_data (k : String) :
    (sanitizeKey k).data =
      k.data.map (fun c => if c = '.' then '_' else if c = '$' then '_' else c) := by
  have : (sanitizeKey k).data =
      (k.data.map (fun a => if a = '.' then '_' else a)).map
        (fun a => if a = '$' then '_' else a) := rfl
  rw [this, List.map_map]
  apply List.map_congr_left
  intro c _
  by_cases h1 : c = '.'
  · subst h1
    rfl
  · by_cases h2 : c = '$'
    · subst h2
      simp [Function.comp, h1]
    · simp [Function.comp, h1, h2]

theorem sanitizeKey_eq_single_pass (k : String) :
    sanitizeKey k =
      String.mk (k.data.map (fun c => if c = '.' then '_' else if c = '$' then '_' else c)) := by
  have h := sanitizeKey_data k
  cases hs : sanitizeKey k with
  | mk l =>
    rw [hs] at h
    simp only at h
    rw [h]

theorem cleanKey_sanitizeKey (k : String) : cleanKey (sanitizeKey k) = true := by
  simp only [cleanKey, sanitizeKey_data, List.all_map, List.all_eq_true]
  intro c _
  by_cases h1 : c = '.'
  · subst h1
    rfl
  · by_cases h2 : c = '$'
    · subst h2
      simp [Function.comp, h1]
    · simp [Function.comp, h1, h2]

theorem sanitizeKey_of_clean (k : String) (h : cleanKey k = true) : sanitizeKey k = k := by
  simp only [cleanKey, List.all_eq_true] at h
  rw [sanitizeKey_eq_single_pass]
  have hmap : k.data.map (fun c => if c = '.' then '_' else if c = '$' then '_' else c)
      = k.data := by
    conv_rhs => rw [← List.map_id k.data]
    apply List.map_congr_left
    intro c hc
    have := h c hc
    simp only [Bool.and_eq_true, Bool.not_eq_true'] at this
    have h1 : ¬ c = '.' := by
      intro hh
      rw [hh] at this
      simp at this
    have h2 : ¬ c = '$' := by
      intro hh
      rw [hh] at this
      simp at this
    simp [h1, h2]
  rw [hmap]

/-! ## sanitize_for_mongo structural lemmas -/

theorem sanitizeArr_eq_map (xs : List Json) :
    sanitizeArr xs = xs.map sanitize_for_mongo := by
  induction xs with
  | nil => simp [sanitizeArr]
  | cons x xs ih => simp [sanitizeArr, ih]

theorem sanitizePairs_eq_map (kvs : List (String × Json)) :
    sanitizePairs kvs = kvs.map (fun p => (sanitizeKey p.1, sanitize_for_mongo p.2)) := by
  induction kvs with
  | nil => simp [sanitizePairs]
  | cons p rest ih =>
    cases p
    simp [sanitizePairs, ih]

theorem isObj_sanitize (j : Json) : (sanitize_for_mongo j).isObj = j.isObj := by
  cases j <;> simp [sanitize_for_mongo, Json.isObj]

/-! ## Boolean predicate characterizations -/

theorem pyDictWFArr_iff (xs : List Json) :
    pyDictWFArr xs = true ↔ ∀ x ∈ xs, pyDictWF x = true := by
  induction xs with
  | nil => simp [pyDictWFArr]
  | cons x xs ih => simp [pyDictWFArr, ih]

theorem pyDictWFPairs_iff (kvs : List (String × Json)) :
    pyDictWFPairs kvs = true ↔ ∀ p ∈ kvs, pyDictWF p.2 = true := by
  induction kvs with
  | nil => simp [pyDictWFPairs]
  | cons p rest ih => simp [pyDictWFPairs, ih]

theorem pyDictWF_obj_iff (kvs : List (String × Json)) :
    pyDictWF (.obj kvs) = true ↔
      (kvs.map Prod.fst).Nodup ∧ ∀ p ∈ kvs, pyDictWF p.2 = true := by
  simp [pyDictWF, pyDictWFPairs_iff]

theorem pyDictWF_arr_iff (xs : List Json) :
    pyDictWF (.arr xs) = true ↔ ∀ x ∈ xs, pyDictWF x = true := by
  simp [pyDictWF, pyDictWFArr_iff]

theorem cleanJsonArr_iff (xs : List Json) :
    cleanJsonArr xs = true ↔ ∀ x ∈ xs, cleanJson x = true := by
  induction xs with
  | nil => simp [cleanJsonArr]
  | cons x xs ih => simp [cleanJsonArr, ih]

theorem cleanJsonPairs_iff (kvs : List (String × Json)) :
    cleanJsonPairs kvs = true ↔
      ∀ p ∈ kvs, cleanKey p.1 = true ∧ cleanJson p.2 = true := by
  induction kvs with
  | nil => simp [cleanJsonPairs]
  | cons p rest ih =>
    cases p
    simp only [cleanJsonPairs, Bool.and_eq_true, ih, List.mem_cons]
    constructor
    · rintro ⟨⟨h1, h2⟩, h3⟩ q hq
      rcases hq with hq | hq
      · subst hq
        exact ⟨h1, h2⟩
      · exact h3 q hq
    · intro h
      exact ⟨⟨(h _ (.inl rfl)).1, (h _ (.inl rfl)).2⟩, fun q hq => h q (.inr hq)⟩

theorem cleanJson_obj_iff (kvs : List (String × Json)) :
    cleanJson (.obj kvs) = true ↔
      ∀ p ∈ kvs, cleanKey p.1 = true ∧ cleanJson p.2 = true := by
  simp [cleanJson, cleanJsonPairs_iff]

theorem cleanJson_arr_iff (xs : List Json) :
    cleanJson (.arr xs) = true ↔ ∀ x ∈ xs, cleanJson x = true := by
  simp [cleanJson, cleanJsonArr_iff]

/-! ## Sanitization output invariants -/

theorem sanitize_wf_clean (j : Json) :
    pyDictWF (sanitize_for_mongo j) = true ∧ cleanJson (sanitize_for_mongo j) = true := by
  refine jsonInduction
    (fun j => pyDictWF (sanitize_for_mongo j) = true ∧ cleanJson (sanitize_for_mongo j) = true)
    ?_ ?_ ?_ ?_ ?_ ?_ j
  · exact ⟨rfl, rfl⟩
  · intro b
    exact ⟨rfl, rfl⟩
  · intro n
    exact ⟨rfl, rfl⟩
  · intro s
    exact ⟨rfl, rfl⟩
  · intro xs ih
    simp only [sanitize_for_mongo, sanitizeArr_eq_map, pyDictWF_arr_iff, cleanJson_arr_iff]
    constructor
    · intro y hy
      rcases List.mem_map.1 hy with ⟨x, hx, rfl⟩
      exact (ih x hx).1
    · intro y hy
      rcases List.mem_map.1 hy with ⟨x, hx, rfl⟩
      exact (ih x hx).2
  · intro kvs ih
    simp only [sanitize_for_mongo, pyDictWF_obj_iff, cleanJson_obj_iff]
    refine ⟨⟨buildDict_keys_nodup _, ?_⟩, ?_⟩
    · intro p hp
      have hmem := mem_buildDict _ p hp
      rw [sanitizePairs_eq_map] at hmem
      rcases List.mem_map.1 hmem with ⟨q, hq, rfl⟩
      exact (ih q hq).1
    · intro p hp
      have hmem := mem_buildDict _ p hp
      rw [sanitizePairs_eq_map] at hmem
      rcases List.mem_map.1 hmem with ⟨q, hq, rfl⟩
      exact ⟨cleanKey_sanitizeKey q.1, (ih q hq).2⟩

theorem sanitize_eq_self (j : Json) (hwf : pyDictWF j = true)
    (hcl : cleanJson j = true) : sanitize_for_mongo j = j := by
  induction j using jsonInduction with
  | hnull => rfl
  | hbool b => rfl
  | hnum n => rfl
  | hstr s => rfl
  | harr xs ih =>
    rw [pyDictWF_arr_iff] at hwf
    rw [cleanJson_arr_iff] at hcl
    simp only [sanitize_for_mongo, sanitizeArr_eq_map]
    congr 1
    conv_rhs => rw [← List.map_id xs]
    apply List.map_congr_left
    intro x hx
    exact ih x hx (hwf x hx) (hcl x hx)
  | hobj kvs ih =>
    rw [pyDictWF_obj_iff] at hwf
    rw [cleanJson_obj_iff] at hcl
    simp only [sanitize_for_mongo, sanitizePairs_eq_map]
    have hpairs : kvs.map (fun p => (sanitizeKey p.1, sanitize_for_mongo p.2)) = kvs := by
      conv_rhs => rw [← List.map_id kvs]
      apply List.map_congr_left
      intro p hp
      have h1 := sanitizeKey_of_clean p.1 (hcl p hp).1
      have h2 := ih p hp (hwf.2 p hp) (hcl p hp).2
      simp [h1, h2]
    rw [hpairs]
    congr 1
    exact buildDict_eq_of_nodup kvs hwf.1

theorem sanitize_idem_aux (j : Json) :
    sanitize_for_mongo (sanitize_for_mongo j) = sanitize_for_mongo j :=
  sanitize_eq_self _ (sanitize_wf_clean j).1 (sanitize_wf_clean j).2

/-! ## dictSet preserves the invariants -/

theorem wf_clean_dictSet (kvs : List (String × Json)) (k : String) (v : Json)
    (hwf : pyDictWF (.obj kvs) = true) (hcl : cleanJson (.obj kvs) = true)
    (hk : cleanKey k = true) (hvwf : pyDictWF v = true) (hvcl : cleanJson v = true) :
    pyDictWF (.obj (dictSet kvs k v)) = true ∧
      cleanJson (.obj (dictSet kvs k v)) = true := by
  rw [pyDictWF_obj_iff] at hwf
  rw [cleanJson_obj_iff] at hcl
  rw [pyDictWF_obj_iff, cleanJson_obj_iff]
  refine ⟨⟨keys_nodup_dictSet kvs k v hwf.1, ?_⟩, ?_⟩
  · intro p hp
    rcases mem_dictSet kvs k v p hp with h1 | h1
    · exact hwf.2 p h1
    · rw [h1]
      exact hvwf
  · intro p hp
    rcases mem_dictSet kvs k v p hp with h1 | h1
    · exact hcl p h1
    · rw [h1]
      exact ⟨hk, hvcl⟩

/-! ## transform lemmas -/

theorem setItem_of_isObj (j : Json) (h : j.isObj = true) (ts : String) :
    setItem j "ingested_at" (.str ts) = .ok (withIngested j ts) := by
  cases j <;> simp_all [Json.isObj, setItem, withIngested]

theorem setItem_of_not_obj (j : Json) (h : j.isObj = false) (k : String) (v : Json) :
    setItem j k v = .error (.typeError "object does not support item assignment") := by
  cases j <;> simp_all [Json.isObj, setItem]

theorem transformLoop_all_obj (clock : Nat → String) (items : List Json) (n : Nat)
    (h : ∀ x ∈ items, x.isObj = true) :
    transformLoop clock n items = .ok (ingestAll clock n items) := by
  induction items generalizing n with
  | nil => simp [transformLoop, ingestAll]
  | cons x rest ih =>
    have hx : (sanitize_for_mongo x).isObj = true := by
      rw [isObj_sanitize]
      exact h x (List.mem_cons_self x rest)
    simp only [transformLoop, ingestAll]
    rw [setItem_of_isObj _ hx]
    rw [ih (n + 1) (fun y hy => h y (List.mem_cons_of_mem x hy))]
    rfl

theorem transformLoop_err (clock : Nat → String) (items : List Json) (n : Nat)
    (h : ∃ x ∈ items, x.isObj = false) :
    transformLoop clock n items =
      .error (.typeError "object does not support item assignment") := by
  induction items generalizing n with
  | nil =>
    rcases h with ⟨x, hx, _⟩
    simp at hx
  | cons x rest ih =>
    by_cases hx : x.isObj = true
    · rcases h with ⟨y, hy, hyb⟩
      rcases List.mem_cons.1 hy with rfl | hy2
      · rw [hx] at hyb
        simp at hyb
      · have hsx : (sanitize_for_mongo x).isObj = true := by
          rw [isObj_sanitize]
          exact hx
        simp only [transformLoop]
        rw [setItem_of_isObj _ hsx]
        rw [ih (n + 1) ⟨y, hy2, hyb⟩]
        rfl
    · have hsx : (sanitize_for_mongo x).isObj = false := by
        rw [isObj_sanitize]
        simpa using hx
      simp only [transformLoop]
      rw [setItem_of_not_obj _ hsx]
      rfl

theorem ingestAll_length (clock : Nat → String) (n : Nat) (items : List Json) :
    (ingestAll clock n items).length = items.length := by
  induction items generalizing n with
  | nil => simp [ingestAll]
  | cons x rest ih => simp [ingestAll, ih]

theorem ingestAll_get (clock : Nat → String) (n : Nat) (items : List Json)
    (i : Nat) (h : i < items.length) (h2 : i < (ingestAll clock n items).length) :
    (ingestAll clock n items).get ⟨i, h2⟩ =
      withIngested (sanitize_for_mongo (items.get ⟨i, h⟩)) (clock (n + i)) := by
  induction items generalizing n i with
  | nil => simp at h
  | cons x rest ih =>
    cases i with
    | zero => simp [ingestAll]
    | succ i =>
      have hr : i < rest.length := by
        simpa using h
      have hr2 : i < (ingestAll clock (n + 1) rest).length := by
        rw [ingestAll_length]
        exact hr
      have heq : (ingestAll clock n (x :: rest)).get ⟨i + 1, h2⟩ =
          (ingestAll clock (n + 1) rest).get ⟨i, hr2⟩ := by
        simp [ingestAll]
      rw [heq, ih (n + 1) i hr hr2]
      have : n + 1 + i = n + (i + 1) := by omega
      rw [this]
      simp

theorem transform_of_vuln_list (clock : Nat → String) (kvs : List (String × Json))
    (items : List Json) (hget : dictGet kvs "vulnerabilities" = some (.arr items)) :
    transform clock (.obj kvs) = transformLoop clock 0 items := by
  simp [transform, pyGetDefault, hget, pyIterElems, Bind.bind, Except.bind]

theorem transform_no_vulns_aux (clock : Nat → String) (kvs : List (String × Json))
    (hget : dictGet kvs "vulnerabilities" = none) :
    transform clock (.obj kvs) = .ok [] := by
  simp [transform, pyGetDefault, hget, pyIterElems, transformLoop, Bind.bind, Except.bind]

theorem jsonLookup_withIngested (j : Json) (h : j.isObj = true) (ts : String) :
    jsonLookup (withIngested j ts) "ingested_at" = some (.str ts) := by
  cases j with
  | obj kvs =>
    simp only [withIngested, jsonLookup]
    exact dictGet_dictSet_self kvs "ingested_at" (.str ts)
  | null => simp [Json.isObj] at h
  | bool b => simp [Json.isObj] at h
  | num n => simp [Json.isObj] at h
  | str s => simp [Json.isObj] at h
  | arr xs => simp [Json.isObj] at h

/-! ## Remaining helper lemmas -/

theorem dedup_length_lt_of_not_nodup (l : List String) (h : ¬ l.Nodup) :
    l.dedup.length < l.length := by
  have hsub : l.dedup.Sublist l := List.dedup_sublist l
  rcases lt_or_eq_of_le hsub.length_le with h1 | h1
  · exact h1
  · exact absurd (List.dedup_eq_self.1 (hsub.eq_of_length h1)) h

theorem keys_sanitizePairs (kvs : List (String × Json)) :
    (sanitizePairs kvs).map Prod.fst = kvs.map (fun p => sanitizeKey p.1) := by
  rw [sanitizePairs_eq_map, List.map_map]
  rfl

theorem dictSet_dictSet_same (kvs : List (String × Json)) (k : String) (v w : Json) :
    dictSet (dictSet kvs k v) k w = dictSet kvs k w := by
  induction kvs with
  | nil => simp [dictSet]
  | cons p rest ih =>
    by_cases h : p.1 = k
    · rw [dictSet_cons_pos p rest k v h, dictSet_cons_pos _ rest k w rfl,
        dictSet_cons_pos p rest k w h]
    · rw [dictSet_cons_neg p rest k v h, dictSet_cons_neg p _ k w h,
        dictSet_cons_neg p rest k w h, ih]

/-! ## Claims -/

/-- C1: sanitization rewrites every mapping key by replacing each occurrence
of `.` and of `$` with `_` (the two passes of the source equal one combined
substitution), recurses through nested mappings, sanitizes sequence elements
recursively with order preserved, returns every non-mapping, non-sequence
value unchanged, and on the record `{"cve.id": "CVE-2024-0001", "notes":
{"a.b$c": 1}}` produces `{"cve_id": "CVE-2024-0001", "notes": {"a_b_c": 1}}`
(the mapping clause is stated for key lists whose rewrites stay distinct;
colliding rewrites are the subject of C9). -/
theorem C1_sanitize_characterization :
    (∀ k : String, sanitizeKey k =
      String.mk (k.data.map (fun c => if c = '.' then '_' else if c = '$' then '_' else c))) ∧
    sanitize_for_mongo .null = .null ∧
    (∀ b, sanitize_for_mongo (.bool b) = .bool b) ∧
    (∀ n, sanitize_for_mongo (.num n) = .num n) ∧
    (∀ s, sanitize_for_mongo (.str s) = .str s) ∧
    (∀ xs, sanitize_for_mongo (.arr xs) = .arr (xs.map sanitize_for_mongo)) ∧
    (∀ kvs, (kvs.map (fun p => sanitizeKey p.1)).Nodup →
      sanitize_for_mongo (.obj kvs) =
        .obj (kvs.map (fun p => (sanitizeKey p.1, sanitize_for_mongo p.2)))) ∧
    sanitize_for_mongo (.obj [("cve.id", .str "CVE-2024-0001"),
        ("notes", .obj [("a.b$c", .num 1)])]) =
      .obj [("cve_id", .str "CVE-2024-0001"), ("notes", .obj [("a_b_c", .num 1)])] := by
  refine ⟨sanitizeKey_eq_single_pass, rfl, fun b => rfl, fun n => rfl, fun s => rfl,
    ?_, ?_, rfl⟩
  · intro xs
    simp [sanitize_for_mongo, sanitizeArr_eq_map]
  · intro kvs h
    simp only [sanitize_for_mongo, sanitizePairs_eq_map]
    congr 1
    apply buildDict_eq_of_nodup
    rw [List.map_map]
    exact h

/-- C1 witness: the mapping clause of `C1_sanitize_characterization` applied
to a concrete two-key record whose rewritten keys stay distinct. -/
theorem C1_witness :
    (List.map (fun p => sanitizeKey p.1) [("a.b", Json.num 1), ("c$d", Json.num 2)]).Nodup ∧
    sanitize_for_mongo (.obj [("a.b", .num 1), ("c$d", .num 2)]) =
      .obj (List.map (fun p => (sanitizeKey p.1, sanitize_for_mongo p.2))
        [("a.b", Json.num 1), ("c$d", Json.num 2)]) :=
  ⟨by decide, C1_sanitize_characterization.2.2.2.2.2.2.1
    [("a.b", .num 1), ("c$d", .num 2)] (by decide)⟩

/-- C2: on an input mapping whose `vulnerabilities` field holds a list of
mappings, `transform` returns one document per element in input order; the
i-th document is the sanitized i-th element with its top-level `ingested_at`
set to the i-th transform-time timestamp, and looking up `ingested_at` in
the output always yields that fresh timestamp (so any pre-existing
`ingested_at` of the source record is overwritten). -/
theorem C2_transform_order_and_timestamp (clock : Nat → String)
    (kvs : List (String × Json)) (items : List Json)
    (hget : dictGet kvs "vulnerabilities" = some (.arr items))
    (hobj : ∀ x ∈ items, x.isObj = true) :
    ∃ docs, transform clock (.obj kvs) = .ok docs ∧
      docs.length = items.length ∧
      ∀ i (hi : i < items.length) (hi2 : i < docs.length),
        docs.get ⟨i, hi2⟩ =
          withIngested (sanitize_for_mongo (items.get ⟨i, hi⟩)) (clock i) ∧
        jsonLookup (docs.get ⟨i, hi2⟩) "ingested_at" = some (.str (clock i)) := by
  refine ⟨ingestAll clock 0 items, ?_, ingestAll_length clock 0 items, ?_⟩
  · rw [transform_of_vuln_list clock kvs items hget]
    exact transformLoop_all_obj clock items 0 hobj
  · intro i hi hi2
    have hg := ingestAll_get clock 0 items i hi hi2
    simp only [Nat.zero_add] at hg
    refine ⟨hg, ?_⟩
    rw [hg]
    apply jsonLookup_withIngested
    rw [isObj_sanitize]
    exact hobj _ (List.get_mem items _ _)

/-- C2 witness: `C2_transform_order_and_timestamp` on a record that already
carries an `ingested_at` field (which the transform overwrites). -/
theorem C2_witness :
    ∃ docs, transform (fun _ => "2026-10-12T00:00:00+00:00")
        (.obj [("vulnerabilities",
          .arr [.obj [("ingested_at", .str "old"), ("cve.id", .str "X")]])]) = .ok docs ∧
      docs.length = [Json.obj [("ingested_at", .str "old"), ("cve.id", .str "X")]].length ∧
      ∀ i (hi : i < [Json.obj [("ingested_at", .str "old"), ("cve.id", .str "X")]].length)
        (hi2 : i < docs.length),
        docs.get ⟨i, hi2⟩ =
          withIngested (sanitize_for_mongo
            ([Json.obj [("ingested_at", .str "old"), ("cve.id", .str "X")]].get ⟨i, hi⟩))
            ((fun _ => "2026-10-12T00:00:00+00:00") i) ∧
        jsonLookup (docs.get ⟨i, hi2⟩) "ingested_at" =
          some (.str ((fun _ => "2026-10-12T00:00:00+00:00") i)) :=
  C2_transform_order_and_timestamp (fun _ => "2026-10-12T00:00:00+00:00")
    [("vulnerabilities", .arr [.obj [("ingested_at", .str "old"), ("cve.id", .str "X")]])]
    [.obj [("ingested_at", .str "old"), ("cve.id", .str "X")]] rfl (by decide)

/-- C3: an input mapping with no `vulnerabilities` field is treated as an
empty sequence: `transform` returns an empty list and raises nothing. -/
theorem C3_transform_missing_field (clock : Nat → String)
    (kvs : List (String × Json)) (h : dictGet kvs "vulnerabilities" = none) :
    transform clock (.obj kvs) = .ok [] :=
  transform_no_vulns_aux clock kvs h

/-- C3 witness: `C3_transform_missing_field` on a mapping without the
`vulnerabilities` key. -/
theorem C3_witness :
    transform (fun _ => "T") (.obj [("title", .str "KEV")]) = .ok [] :=
  C3_transform_missing_field (fun _ => "T") [("title", .str "KEV")] rfl

/-- C4 counterexample: with the store endpoint present and an empty document
list, `load_to_mongo` does not return a zero count.  The Python function
body has no `return` statement, so the call evaluates to `None`
(modelled as `Option Nat` with `none` for `None`), not to the integer 0. -/
theorem C4_counterexample :
    (load_to_mongo (some "mongodb://localhost:27017")
        (fun ds => .ok ds.length) []).result = .ok none ∧
    (load_to_mongo (some "mongodb://localhost:27017")
        (fun ds => .ok ds.length) []).result ≠ .ok (some 0) := by
  refine ⟨rfl, ?_⟩
  intro h
  have h2 : (Except.ok (none : Option Nat) : Except PyError (Option Nat)) = .ok (some 0) := h
  simp at h2

/-- C4 amended: when the store endpoint configuration is present and the
document list is empty, the loader skips the insert call entirely, emits a
warning-level diagnostic, and returns normally without raising — but it
returns no count at all (Python `None`); the inserted count is only logged,
and only on the non-empty path. -/
theorem C4_amended (uri : Option String) (h : pyTruthyStr uri = true)
    (ins : List Json → Except PyError Nat) :
    (load_to_mongo uri ins []).insertCalled = false ∧
    (load_to_mongo uri ins []).warned = true ∧
    (load_to_mongo uri ins []).inserted = [] ∧
    (load_to_mongo uri ins []).result = .ok none := by
  simp [load_to_mongo, h]

/-- C4 witness: `C4_amended` with a concrete URI and insert behaviour. -/
theorem C4_witness :
    pyTruthyStr (some "mongodb://localhost:27017") = true ∧
    (load_to_mongo (some "mongodb://localhost:27017")
        (fun ds => .ok ds.length) []).insertCalled = false ∧
    (load_to_mongo (some "mongodb://localhost:27017")
        (fun ds => .ok ds.length) []).warned = true ∧
    (load_to_mongo (some "mongodb://localhost:27017")
        (fun ds => .ok ds.length) []).inserted = [] ∧
    (load_to_mongo (some "mongodb://localhost:27017")
        (fun ds => .ok ds.length) []).result = .ok none :=
  ⟨rfl, C4_amended (some "mongodb://localhost:27017") rfl (fun ds => .ok ds.length)⟩

/-- C5: if the store connection string is unset (or empty, which Python's
truthiness check also rejects), `load_to_mongo` raises a configuration
RuntimeError before any connection or insert; the check happens only inside
`load_to_mongo`, so a run with missing store configuration still executes
fetch and transform (whenever they succeed) and then fails at load time with
nothing persisted. -/
theorem C5_missing_uri_fails_at_load_time (uri : Option String)
    (h : pyTruthyStr uri = false) :
    (∀ ins docs,
      (load_to_mongo uri ins docs).result =
        .error (.runtimeError "MONGO_URI not set in environment variables.") ∧
      (load_to_mongo uri ins docs).connected = false ∧
      (load_to_mongo uri ins docs).insertCalled = false) ∧
    (∀ env : Env, env.mongoUri = uri → ∀ raw docs,
      extract env.http = .ok raw → transform env.clock raw = .ok docs →
      (run env).fetchRan = true ∧ (run env).transformRan = true ∧
      (run env).loadRan = true ∧ (run env).state = .failed ∧
      (run env).insertCalled = false ∧ (run env).inserted = [] ∧
      (run env).errorLogged =
        some (.runtimeError "MONGO_URI not set in environment variables.")) := by
  constructor
  · intro ins docs
    simp [load_to_mongo, h]
  · intro env hmu raw docs hex htr
    simp [run, pipelineE, hex, htr, hmu, load_to_mongo, h]

/-- C5 witness: `C5_missing_uri_fails_at_load_time` with an unset URI, on a
run whose fetch and transform succeed. -/
theorem C5_witness :
    ((load_to_mongo none (fun ds => .ok ds.length) []).result =
        .error (.runtimeError "MONGO_URI not set in environment variables.") ∧
      (load_to_mongo none (fun ds => .ok ds.length) []).connected = false ∧
      (load_to_mongo none (fun ds => .ok ds.length) []).insertCalled = false) ∧
    ((run (Env.mk none (.ok ⟨200, .ok (.obj [("vulnerabilities", .arr [])])⟩)
        (fun ds => .ok ds.length) (fun _ => "T"))).fetchRan = true ∧
      (run (Env.mk none (.ok ⟨200, .ok (.obj [("vulnerabilities", .arr [])])⟩)
        (fun ds => .ok ds.length) (fun _ => "T"))).transformRan = true ∧
      (run (Env.mk none (.ok ⟨200, .ok (.obj [("vulnerabilities", .arr [])])⟩)
        (fun ds => .ok ds.length) (fun _ => "T"))).loadRan = true ∧
      (run (Env.mk none (.ok ⟨200, .ok (.obj [("vulnerabilities", .arr [])])⟩)
        (fun ds => .ok ds.length) (fun _ => "T"))).state = .failed ∧
      (run (Env.mk none (.ok ⟨200, .ok (.obj [("vulnerabilities", .arr [])])⟩)
        (fun ds => .ok ds.length) (fun _ => "T"))).insertCalled = false ∧
      (run (Env.mk none (.ok ⟨200, .ok (.obj [("vulnerabilities", .arr [])])⟩)
        (fun ds => .ok ds.length) (fun _ => "T"))).inserted = [] ∧
      (run (Env.mk none (.ok ⟨200, .ok (.obj [("vulnerabilities", .arr [])])⟩)
        (fun ds => .ok ds.length) (fun _ => "T"))).errorLogged =
        some (.runtimeError "MONGO_URI not set in environment variables.")) :=
  ⟨(C5_missing_uri_fails_at_load_time none rfl).1 (fun ds => .ok ds.length) [],
    (C5_missing_uri_fails_at_load_time none rfl).2
      (Env.mk none (.ok ⟨200, .ok (.obj [("vulnerabilities", .arr [])])⟩)
        (fun ds => .ok ds.length) (fun _ => "T"))
      rfl (.obj [("vulnerabilities", .arr [])]) [] rfl rfl⟩

/-- C6: every exception raised inside the pipeline (configuration, fetch,
parse or insert error) is caught at `run`'s boundary, logged and swallowed:
`run` is a total function into a trace, the trace is FAILED with the
exception recorded in the log exactly when the pipeline raised, and DONE
with no error logged otherwise — the exception is never re-raised to the
caller. -/
theorem C6_run_swallows_errors (env : Env) :
    (∀ e, (pipelineE env).2 = .error e →
      (run env).state = .failed ∧ (run env).errorLogged = some e) ∧
    (∀ v, (pipelineE env).2 = .ok v →
      (run env).state = .done ∧ (run env).errorLogged = none) := by
  rcases hp : pipelineE env with ⟨eff, res⟩
  constructor
  · intro e he
    have he2 : res = .error e := he
    subst he2
    simp [run, hp]
  · intro v hv
    have hv2 : res = .ok v := hv
    subst hv2
    simp [run, hp]

/-- C6 witness: `C6_run_swallows_errors` on a run whose insert call raises;
the run terminates with the insert error logged, not re-raised. -/
theorem C6_witness :
    (pipelineE (Env.mk (some "mongodb://h")
        (.ok ⟨200, .ok (.obj [("vulnerabilities", .arr [.obj []])])⟩)
        (fun _ => .error (.insertError "boom")) (fun _ => "T"))).2 =
      .error (.insertError "boom") ∧
    (run (Env.mk (some "mongodb://h")
        (.ok ⟨200, .ok (.obj [("vulnerabilities", .arr [.obj []])])⟩)
        (fun _ => .error (.insertError "boom")) (fun _ => "T"))).state = .failed ∧
    (run (Env.mk (some "mongodb://h")
        (.ok ⟨200, .ok (.obj [("vulnerabilities", .arr [.obj []])])⟩)
        (fun _ => .error (.insertError "boom")) (fun _ => "T"))).errorLogged =
      some (.insertError "boom") :=
  ⟨rfl, (C6_run_swallows_errors _).1 (.insertError "boom") rfl⟩

/-- C7: whenever the fetch step raises (for example because the HTTP
response has status 500, which `raise_for_status` turns into an exception),
the run ends in the FAILED state, transform and load never execute, and no
insert call is attempted. -/
theorem C7_fetch_failure_no_insert (env : Env) (e : PyError)
    (h : extract env.http = .error e) :
    (run env).state = .failed ∧ (run env).insertCalled = false ∧
    (run env).inserted = [] ∧ (run env).transformRan = false ∧
    (run env).loadRan = false ∧ (run env).errorLogged = some e := by
  simp [run, pipelineE, h, noLoad]

/-- C7 witness: `C7_fetch_failure_no_insert` on a run whose fetch returns
HTTP 500. -/
theorem C7_witness :
    extract (.ok ⟨500, .ok .null⟩) = .error (.httpError 500) ∧
    (run (Env.mk (some "mongodb://h") (.ok ⟨500, .ok .null⟩)
        (fun ds => .ok ds.length) (fun _ => "T"))).state = .failed ∧
    (run (Env.mk (some "mongodb://h") (.ok ⟨500, .ok .null⟩)
        (fun ds => .ok ds.length) (fun _ => "T"))).insertCalled = false ∧
    (run (Env.mk (some "mongodb://h") (.ok ⟨500, .ok .null⟩)
        (fun ds => .ok ds.length) (fun _ => "T"))).transformRan = false :=
  ⟨rfl,
    ((C7_fetch_failure_no_insert
      (Env.mk (some "mongodb://h") (.ok ⟨500, .ok .null⟩)
        (fun ds => .ok ds.length) (fun _ => "T")) (.httpError 500) rfl).1),
    ((C7_fetch_failure_no_insert
      (Env.mk (some "mongodb://h") (.ok ⟨500, .ok .null⟩)
        (fun ds => .ok ds.length) (fun _ => "T")) (.httpError 500) rfl).2.1),
    ((C7_fetch_failure_no_insert
      (Env.mk (some "mongodb://h") (.ok ⟨500, .ok .null⟩)
        (fun ds => .ok ds.length) (fun _ => "T")) (.httpError 500) rfl).2.2.2.1)⟩

/-- C8: sanitization is idempotent on every JSON value; on any value whose
mapping keys are all free of `.` and `$` (and which satisfies the Python
dict representation invariant of duplicate-free keys, `pyDictWF`) it is the
identity; and re-running the sanitize-plus-timestamp step of `transform` on
an already-transformed record reproduces it exactly, except for the
refreshed `ingested_at`. -/
theorem C8_sanitize_idempotent :
    (∀ j, sanitize_for_mongo (sanitize_for_mongo j) = sanitize_for_mongo j) ∧
    (∀ j, pyDictWF j = true → cleanJson j = true → sanitize_for_mongo j = j) ∧
    (∀ j ts ts2,
      sanitize_for_mongo (withIngested (sanitize_for_mongo j) ts) =
        withIngested (sanitize_for_mongo j) ts ∧
      withIngested (sanitize_for_mongo (withIngested (sanitize_for_mongo j) ts)) ts2 =
        withIngested (sanitize_for_mongo j) ts2) := by
  refine ⟨sanitize_idem_aux, sanitize_eq_self, ?_⟩
  intro j ts ts2
  by_cases ho : (sanitize_for_mongo j).isObj = true
  · obtain ⟨kvs, hs⟩ : ∃ kvs, sanitize_for_mongo j = .obj kvs := by
      cases hx : sanitize_for_mongo j <;> simp_all [Json.isObj]
    have hwf : pyDictWF (.obj kvs) = true := hs ▸ (sanitize_wf_clean j).1
    have hcl : cleanJson (.obj kvs) = true := hs ▸ (sanitize_wf_clean j).2
    have hpres := wf_clean_dictSet kvs "ingested_at" (.str ts) hwf hcl rfl rfl rfl
    have h1 : sanitize_for_mongo (withIngested (.obj kvs) ts) =
        withIngested (.obj kvs) ts := by
      simp only [withIngested]
      exact sanitize_eq_self _ hpres.1 hpres.2
    rw [hs]
    refine ⟨h1, ?_⟩
    rw [h1]
    simp only [withIngested]
    congr 1
    exact dictSet_dictSet_same kvs "ingested_at" (.str ts) (.str ts2)
  · have hw : ∀ t : String, withIngested (sanitize_for_mongo j) t =
        sanitize_for_mongo j := by
      intro t
      cases hx : sanitize_for_mongo j <;> simp_all [Json.isObj, withIngested]
    rw [hw ts, sanitize_idem_aux j, hw ts2]
    exact ⟨rfl, rfl⟩

/-- C8 witness: the identity clause of `C8_sanitize_idempotent` on a record
whose keys are already clean. -/
theorem C8_witness :
    pyDictWF (.obj [("a", Json.null)]) = true ∧
    cleanJson (.obj [("a", Json.null)]) = true ∧
    sanitize_for_mongo (.obj [("a", Json.null)]) = .obj [("a", Json.null)] :=
  ⟨rfl, rfl, C8_sanitize_idempotent.2.1 _ rfl rfl⟩

/-- C9: sanitization preserves structural shape: a mapping stays a mapping
with the same number of keys when the rewritten keys are pairwise distinct,
and with strictly fewer keys when rewriting makes keys collide (last write
wins); a sequence stays a sequence of the same length; every non-mapping,
non-sequence leaf is returned unchanged in value and type. -/
theorem C9_shape_preservation :
    (∀ kvs, (kvs.map (fun p => sanitizeKey p.1)).Nodup →
      ∃ out, sanitize_for_mongo (.obj kvs) = .obj out ∧ out.length = kvs.length) ∧
    (∀ kvs, ¬ (kvs.map (fun p => sanitizeKey p.1)).Nodup →
      ∃ out, sanitize_for_mongo (.obj kvs) = .obj out ∧ out.length < kvs.length) ∧
    (∀ xs, ∃ out, sanitize_for_mongo (.arr xs) = .arr out ∧ out.length = xs.length) ∧
    sanitize_for_mongo .null = .null ∧
    (∀ b, sanitize_for_mongo (.bool b) = .bool b) ∧
    (∀ n, sanitize_for_mongo (.num n) = .num n) ∧
    (∀ s, sanitize_for_mongo (.str s) = .str s) := by
  refine ⟨?_, ?_, ?_, rfl, fun b => rfl, fun n => rfl, fun s => rfl⟩
  · intro kvs h
    refine ⟨buildDict (sanitizePairs kvs), by simp [sanitize_for_mongo], ?_⟩
    rw [buildDict_eq_of_nodup]
    · rw [sanitizePairs_eq_map]
      simp
    · rw [keys_sanitizePairs]
      exact h
  · intro kvs h
    refine ⟨buildDict (sanitizePairs kvs), by simp [sanitize_for_mongo], ?_⟩
    rw [buildDict_length, keys_sanitizePairs, List.card_toFinset]
    calc (kvs.map (fun p => sanitizeKey p.1)).dedup.length
        < (kvs.map (fun p => sanitizeKey p.1)).length :=
          dedup_length_lt_of_not_nodup _ h
      _ = kvs.length := by simp
  · intro xs
    exact ⟨xs.map sanitize_for_mongo,
      by simp [sanitize_for_mongo, sanitizeArr_eq_map], by simp⟩

/-- C9 witness: `C9_shape_preservation` on a collision-free record and on a
record whose two distinct keys both rewrite to `a_b`. -/
theorem C9_witness :
    (∃ out, sanitize_for_mongo (.obj [("a.b", Json.null)]) = .obj out ∧
      out.length = [("a.b", Json.null)].length) ∧
    (∃ out, sanitize_for_mongo (.obj [("a.b", Json.null), ("a$b", Json.num 2)]) =
        .obj out ∧
      out.length < [("a.b", Json.null), ("a$b", Json.num 2)].length) :=
  ⟨C9_shape_preservation.1 _ (by decide), C9_shape_preservation.2.1 _ (by decide)⟩

/-- C10: `transform` is only total when every element of the
`vulnerabilities` sequence is a mapping: if some element is not a mapping,
the `ingested_at` item assignment raises a `TypeError`, so `transform`
raises instead of passing the element through. -/
theorem C10_nonmapping_element_raises (clock : Nat → String)
    (kvs : List (String × Json)) (items : List Json)
    (hget : dictGet kvs "vulnerabilities" = some (.arr items))
    (hbad : ∃ x ∈ items, x.isObj = false) :
    transform clock (.obj kvs) =
      .error (.typeError "object does not support item assignment") := by
  rw [transform_of_vuln_list clock kvs items hget]
  exact transformLoop_err clock items 0 hbad

/-- C10 witness: `C10_nonmapping_element_raises` on a payload whose
`vulnerabilities` list holds a string element. -/
theorem C10_witness :
    transform (fun _ => "T") (.obj [("vulnerabilities", .arr [.str "x"])]) =
      .error (.typeError "object does not support item assignment") :=
  C10_nonmapping_element_raises (fun _ => "T") _ [.str "x"] rfl
    ⟨.str "x", by simp, rfl⟩
